import Mathlib

/-!
Verification of the workout-logger core (shallow embedding of `src/py.py`).

The embedding models the pure core of the program:

* `detect_body_part` — fuzzy muscle-group classification over the fixed
  keyword table `muscle_keywords`;
* `detect_intensity` — the rep-count intensity bands;
* `get_previous_logs` — fuzzy history lookup restricted to the two most
  recent distinct dates;
* `progressVerdict` — the per-set progress comparison performed in
  `render_exercise_block`;
* `parseWeight` / `parseReps` / `processSet` — the per-set input handling
  and record construction of `render_exercise_block`;
* `append_log` / `saveWorkout` — the save-button handler.

The external fuzzy scorer (`thefuzz`: `fuzz.partial_ratio` and
`process.extractOne`) is an external library; its 0–100 scoring function is
abstracted as an arbitrary parameter `score : String → String → Nat`, while
the best-of-all extraction logic of `extractOne` (first maximal candidate
wins) is embedded explicitly.  Likewise Python's `float`/`int` string
parsers are abstracted as `String → Option _` parameters; the surrounding
try/except defaulting logic is embedded explicitly.  Machine floats of the
source are modelled as exact rationals, dates as ISO-8601 strings (whose
lexicographic order agrees with calendar order, as in the pandas code,
which sorts the CSV date column as strings).
-/

namespace WorkoutLogger

/-- One row of the log store (CSV columns
`date,exercise,body_part,set,weight,reps,volume,intensity`). -/
structure Row where
  date : String
  exercise : String
  bodyPart : String
  set : Nat
  weight : Rat
  reps : Int
  volume : Rat
  intensity : String
deriving DecidableEq

/-- The in-memory view of the log-store CSV produced by `pd.read_csv`:
the parsed rows together with whether an `exercise` column is present
(`"exercise" not in df` in the source). -/
structure DataFrame where
  hasExercise : Bool
  rows : List Row
deriving DecidableEq

/-- The keyword table `muscle_keywords` of the source, in declared order. -/
def muscle_keywords : List (String × List String) :=
  [("Chest", ["bench", "press", "pec", "fly", "incline", "decline"]),
   ("Back", ["row", "pull", "lat", "deadlift"]),
   ("Shoulders", ["shoulder", "overhead", "military", "lateral", "raise"]),
   ("Biceps", ["curl", "biceps", "preacher"]),
   ("Triceps", ["triceps", "dips", "pushdown", "extension"]),
   ("Forearms", ["reverse", "wrist", "hammer", "forearm"]),
   ("Legs", ["squat", "leg", "lunge", "hamstring", "quad", "calf"]),
   ("Core", ["abs", "crunch", "plank", "sit-up", "core"])]

/-- The `(group, keyword)` pairs visited by the nested loops of
`detect_body_part`, flattened in iteration order (Python dicts iterate in
insertion order, so this is the declared mapping order). -/
def keywordPairs : List (String × String) :=
  muscle_keywords.foldr (fun g acc => g.2.map (fun k => (g.1, k)) ++ acc) []

/-- The accumulator loop of `detect_body_part`: Python's
`if score > best_score and score >= 80: best_score, best_match = score, group`. -/
def detectLoop (score : String → String → Nat) (name : String) :
    List (String × String) → Option String → Nat → Option String
  | [], best, _ => best
  | p :: ps, best, bestScore =>
    if bestScore < score p.2 name ∧ 80 ≤ score p.2 name then
      detectLoop score name ps (some p.1) (score p.2 name)
    else
      detectLoop score name ps best bestScore

/-- `detect_body_part` of the source, with the external fuzzy scorer
abstracted as `score keyword name`. -/
def detect_body_part (score : String → String → Nat) (exerciseName : String) :
    Option String :=
  detectLoop score exerciseName.toLower keywordPairs none 0

/-- `detect_intensity` of the source.  Python's `int` is unbounded and may
be negative, so the domain is `Int`. -/
def detect_intensity (reps : Int) : String :=
  if reps < 6 then "Too Heavy"
  else if 6 ≤ reps ∧ reps ≤ 12 then "Moderate Heavy"
  else "Light Weight"

/-- Maximum of `f` over a list (0 when empty); all scores are `Nat`s, so
the 0 base never exceeds an attained value. -/
def listMax {α : Type} (f : α → Nat) (l : List α) : Nat :=
  (l.map f).foldr max 0

/-- The best score over the whole keyword table for a given (already
lower-cased input) name — the final value of `best_score` when the loop of
`detect_body_part` exits, described independently of the loop. -/
def bestKeywordScore (score : String → String → Nat) (name : String) : Nat :=
  listMax (fun p => score p.2 name) keywordPairs

/-- Distinct elements of a list in first-occurrence order — the behaviour
of `pandas.Series.unique`. -/
def uniqueFirst {α : Type} [DecidableEq α] : List α → List α
  | [] => []
  | a :: l => a :: (uniqueFirst l).filter (fun b => decide (b ≠ a))

/-- The scan inside `process.extractOne`: Python's `max` over the scored
candidates keeps the first candidate attaining the maximal score (it only
replaces the current best on a strictly greater score). -/
def extractLoop (score : String → String → Nat) (query : String) :
    List String → (String × Nat) → (String × Nat)
  | [], best => best
  | c :: cs, best =>
    if best.2 < score query c then extractLoop score query cs (c, score query c)
    else extractLoop score query cs best

/-- `process.extractOne` of `thefuzz` over an abstract scorer: `none` on an
empty candidate list, otherwise the first candidate attaining the best
score, paired with that score. -/
def extractOne (score : String → String → Nat) (query : String) :
    List String → Option (String × Nat)
  | [] => none
  | c :: cs => some (extractLoop score query cs (c, score query c))

/-- The distinct historical exercise names (`df['exercise'].unique()`). -/
def histNames (df : DataFrame) : List String :=
  uniqueFirst (df.rows.map (fun r => r.exercise))

/-- `df[df['exercise'].str.lower() == best_match.lower()]` of the
source. -/
def matchedRows (df : DataFrame) (best : String) : List Row :=
  df.rows.filter (fun r => decide (r.exercise.toLower = best.toLower))

/-- `df.sort_values(by="date", ascending=False)` applied to the matching
rows (the CSV date column holds ISO strings, which pandas sorts as
strings). -/
def sortedMatched (df : DataFrame) (best : String) : List Row :=
  (matchedRows df best).mergeSort (fun a b => decide (b.date ≤ a.date))

/-- `recent_dates = df["date"].unique()[:2]` of the source, taken on the
date-descending frame. -/
def recentDates (df : DataFrame) (best : String) : List String :=
  (uniqueFirst ((sortedMatched df best).map (fun r => r.date))).take 2

/-- `get_previous_logs` of the source.  `file = none` models a missing
`workout_log.csv` (`os.path.exists` false); otherwise the parsed frame is
given.  The fuzzy scorer of `process.extractOne` is abstracted as
`score query candidate`. -/
def get_previous_logs (score : String → String → Nat)
    (file : Option DataFrame) (exerciseName : String) : List Row :=
  match file with
  | none => []
  | some df =>
    if df.rows.isEmpty ∨ df.hasExercise = false then []
    else
      match extractOne score exerciseName.toLower (histNames df) with
      | none => []
      | some (best, s) =>
        if 85 ≤ s then
          (sortedMatched df best).filter
            (fun r => decide (r.date ∈ recentDates df best))
        else []

/-- The best fuzzy score of the query against the distinct historical
names. -/
def bestHistScore (score : String → String → Nat) (df : DataFrame)
    (q : String) : Nat :=
  listMax (fun c => score q.toLower c) (histNames df)

/-- The canonical best match: the first distinct historical name attaining
the best score. -/
def bestHistMatch? (score : String → String → Nat) (df : DataFrame)
    (q : String) : Option String :=
  (histNames df).find?
    (fun c => decide (score q.toLower c = bestHistScore score df q))

/-- Spec-side reading of "the two most recent distinct dates": a row
qualifies when fewer than two distinct dates occurring among the matching
rows are strictly more recent than its own date. -/
def isRecentOf (rows : List Row) (r : Row) : Bool :=
  decide ((uniqueFirst (rows.map (fun x => x.date))).countP
    (fun d => decide (r.date < d)) < 2)

/-- Spec-side description of the non-empty result of the history matcher:
the rows of the log whose exercise name equals the canonical match
case-insensitively, restricted to the two most recent distinct dates. -/
def specRecentRows (df : DataFrame) (best : String) : List Row :=
  (matchedRows df best).filter (fun r => isRecentOf (matchedRows df best) r)

/-- The per-set progress verdict kinds of `render_exercise_block`
(`st.error` / `st.info` / `st.success`). -/
inductive VerdictKind
  | regression
  | matched
  | improvement
deriving DecidableEq

/-- The data shown by a progress verdict: the historical rep count, the
suggested target, and which of the three messages is displayed. -/
structure Suggestion where
  lastReps : Int
  targetReps : Int
  kind : VerdictKind
deriving DecidableEq

/-- `prev_logs[(prev_logs["weight"] == weight) & (prev_logs["set"] == s)]`
of the source. -/
def sameWeightSet (prevLogs : List Row) (s : Nat) (weight : Rat) : List Row :=
  prevLogs.filter (fun r => decide (r.weight = weight) && decide (r.set = s))

/-- The progress-suggestion block of `render_exercise_block`: `none` when
no verdict is displayed, otherwise the verdict derived from the latest
matching historical row (`same_weight_set.sort_values("date").iloc[-1]`). -/
def progressVerdict (prevLogs : List Row) (s : Nat) (weight : Rat)
    (reps : Int) : Option Suggestion :=
  if prevLogs.isEmpty then none
  else
    let ms := sameWeightSet prevLogs s weight
    if ms.isEmpty then none
    else
      match (ms.mergeSort (fun a b => decide (a.date ≤ b.date))).getLast? with
      | none => none
      | some last =>
        if reps < last.reps then
          some ⟨last.reps, last.reps + 1, VerdictKind.regression⟩
        else if reps = last.reps then
          some ⟨last.reps, last.reps + 1, VerdictKind.matched⟩
        else
          some ⟨last.reps, last.reps + 1, VerdictKind.improvement⟩

/-- `weight = float(weight_input) if weight_input else 0.0` wrapped in
try/except: the parsed weight together with whether the invalid-input
warning fires.  The parser `pw` abstracts Python's `float(·)`. -/
def parseWeight (pw : String → Option Rat) (s : String) : Rat × Bool :=
  if s = "" then (0, false)
  else
    match pw s with
    | some v => (v, false)
    | none => (0, true)

/-- `reps = int(reps_input) if reps_input else 0` wrapped in try/except;
the parser `pr` abstracts Python's `int(·)`. -/
def parseReps (pr : String → Option Int) (s : String) : Int × Bool :=
  if s = "" then (0, false)
  else
    match pr s with
    | some v => (v, false)
    | none => (0, true)

/-- The outcome of processing one set inside `render_exercise_block`: the
record appended to `log_rows`, the two possible invalid-input warnings,
and the (display-only) progress suggestion. -/
structure SetOutcome where
  row : Row
  warnWeight : Bool
  warnReps : Bool
  suggestion : Option Suggestion
deriving DecidableEq

/-- The body of the per-set loop of `render_exercise_block` (parse inputs,
derive volume and intensity, compute the progress suggestion, build the
`log_rows` entry). -/
def processSet (pw : String → Option Rat) (pr : String → Option Int)
    (prevLogs : List Row) (date name bodyPart : String) (s : Nat)
    (weightInput repsInput : String) : SetOutcome :=
  let w := parseWeight pw weightInput
  let r := parseReps pr repsInput
  { row :=
      { date := date, exercise := name, bodyPart := bodyPart, set := s,
        weight := w.1, reps := r.1, volume := w.1 * (r.1 : Rat),
        intensity := detect_intensity r.1 },
    warnWeight := w.2, warnReps := r.2,
    suggestion := progressVerdict prevLogs s w.1 r.1 }

/-- The two messages the save handler can emit. -/
inductive SaveMsg
  | savedOk
  | warnEmpty
deriving DecidableEq

/-- `append_log` of the source: `df.to_csv(LOG_FILE, mode='a', ...)`.
`none` models a missing store file (which the append creates, writing the
header first). -/
def append_log (batch : List Row) (store : Option (List Row)) :
    Option (List Row) :=
  some (store.getD [] ++ batch)

/-- The `Save Workout Log` button handler: warn and skip the write when no
set was logged, otherwise append the batch. -/
def saveWorkout (store : Option (List Row)) (logRows : List Row) :
    Option (List Row) × SaveMsg :=
  if logRows.isEmpty then (store, SaveMsg.warnEmpty)
  else (append_log logRows store, SaveMsg.savedOk)

/-! ### Concrete sample inputs (used to instantiate the theorems) -/

/-- A degenerate fuzzy scorer for instantiations: every comparison scores
100. -/
def constScore : String → String → Nat := fun _ _ => 100

/-- Sample historical row: bench press, first session. -/
def rowBench1 : Row :=
  { date := "2024-01-01", exercise := "Bench Press", bodyPart := "Chest",
    set := 1, weight := 60, reps := 8, volume := 480,
    intensity := "Moderate Heavy" }

/-- Sample historical row: bench press, second session. -/
def rowBench2 : Row :=
  { date := "2024-01-03", exercise := "Bench press", bodyPart := "Chest",
    set := 1, weight := 60, reps := 9, volume := 540,
    intensity := "Moderate Heavy" }

/-- Sample historical row: bench press, third session. -/
def rowBench3 : Row :=
  { date := "2024-01-05", exercise := "Bench Press", bodyPart := "Chest",
    set := 1, weight := 60, reps := 10, volume := 600,
    intensity := "Moderate Heavy" }

/-- A sample parsed store with three distinct session dates. -/
def dfSample : DataFrame :=
  { hasExercise := true, rows := [rowBench1, rowBench2, rowBench3] }

/-! ### Theorems -/

/-- C4: `detect_intensity` is a total function on rep counts: for every
integer `r`, `r < 6` yields `"Too Heavy"`, `6 ≤ r ≤ 12` yields
`"Moderate Heavy"`, and `r > 12` yields `"Light Weight"`; in particular
`r = 0` yields `"Too Heavy"`. -/
theorem detect_intensity_bands (r : Int) :
    (r < 6 → detect_intensity r = "Too Heavy") ∧
    (6 ≤ r → r ≤ 12 → detect_intensity r = "Moderate Heavy") ∧
    (12 < r → detect_intensity r = "Light Weight") ∧
    detect_intensity 0 = "Too Heavy" := by
  refine ⟨fun h => ?_, fun h1 h2 => ?_, fun h => ?_, by decide⟩
  · simp only [detect_intensity]
    rw [if_pos h]
  · simp only [detect_intensity]
    rw [if_neg (by omega), if_pos ⟨h1, h2⟩]
  · simp only [detect_intensity]
    rw [if_neg (by omega), if_neg (by omega)]

/-- Witness for C4 at the rep counts 3, 8 and 15. -/
theorem detect_intensity_bands_witness :
    detect_intensity 3 = "Too Heavy" ∧ detect_intensity 8 = "Moderate Heavy" ∧
      detect_intensity 15 = "Light Weight" :=
  ⟨(detect_intensity_bands 3).1 (by decide),
   (detect_intensity_bands 8).2.1 (by decide) (by decide),
   (detect_intensity_bands 15).2.2.1 (by decide)⟩

/-- C5: `get_previous_logs` applied to a missing store file, to an empty
log, or to a log lacking the exercise column, returns the empty sequence
(and, being a total function, signals no error). -/
theorem get_previous_logs_no_history (score : String → String → Nat)
    (q : String) (file : Option DataFrame)
    (h : file = none ∨
      ∃ df, file = some df ∧ (df.rows = [] ∨ df.hasExercise = false)) :
    get_previous_logs score file q = [] := by
  rcases h with h | ⟨df, rfl, h | h⟩
  · subst h; rfl
  · simp [get_previous_logs, h]
  · simp [get_previous_logs, h]

/-- Witness for C5 at a missing store file. -/
theorem get_previous_logs_no_history_witness :
    get_previous_logs (fun _ _ => 100) none "Bench Press" = [] :=
  get_previous_logs_no_history (fun _ _ => 100) "Bench Press" none (Or.inl rfl)

/-- C7: confirming save with zero logged sets emits the warning and
performs no write: the store is returned unchanged. -/
theorem save_empty_batch_rejected (store : Option (List Row)) :
    saveWorkout store [] = (store, SaveMsg.warnEmpty) := rfl

/-- C9: every record placed into the batch satisfies
`volume = weight × reps` and `intensity = detect_intensity reps`, both
recomputed from the entered values, and the record is independent of the
history subset feeding the (display-only) progress verdict. -/
theorem row_derived_fields (pw : String → Option Rat)
    (pr : String → Option Int) (prevLogs prevLogs' : List Row)
    (date name bodyPart : String) (s : Nat) (wi ri : String) :
    (processSet pw pr prevLogs date name bodyPart s wi ri).row.volume =
      (processSet pw pr prevLogs date name bodyPart s wi ri).row.weight *
        ((processSet pw pr prevLogs date name bodyPart s wi ri).row.reps : Rat) ∧
    (processSet pw pr prevLogs date name bodyPart s wi ri).row.intensity =
      detect_intensity
        (processSet pw pr prevLogs date name bodyPart s wi ri).row.reps ∧
    (processSet pw pr prevLogs' date name bodyPart s wi ri).row =
      (processSet pw pr prevLogs date name bodyPart s wi ri).row :=
  ⟨rfl, rfl, rfl⟩

/-- C8: a non-empty weight or reps input that fails numeric parsing is
recovered locally: the value defaults to 0, the per-set warning fires, and
the set row is still produced (the submission is not aborted). -/
theorem malformed_input_defaults (pw : String → Option Rat)
    (pr : String → Option Int) (prevLogs : List Row)
    (date name bodyPart : String) (s : Nat) (wi ri : String) :
    (wi ≠ "" → pw wi = none →
      (processSet pw pr prevLogs date name bodyPart s wi ri).row.weight = 0 ∧
      (processSet pw pr prevLogs date name bodyPart s wi ri).warnWeight = true) ∧
    (ri ≠ "" → pr ri = none →
      (processSet pw pr prevLogs date name bodyPart s wi ri).row.reps = 0 ∧
      (processSet pw pr prevLogs date name bodyPart s wi ri).warnReps = true) ∧
    ((processSet pw pr prevLogs date name bodyPart s wi ri).row.set = s ∧
     (processSet pw pr prevLogs date name bodyPart s wi ri).row.exercise = name ∧
     (processSet pw pr prevLogs date name bodyPart s wi ri).row.date = date) := by
  refine ⟨fun h1 h2 => ?_, fun h1 h2 => ?_, rfl, rfl, rfl⟩
  · simp [processSet, parseWeight, h1, h2]
  · simp [processSet, parseReps, h1, h2]

/-- Witness for C8 at unparsable inputs `"abc"` and `"xyz"`. -/
theorem malformed_input_defaults_witness :
    ((processSet (fun _ => none) (fun _ => none) [] "2024-01-01"
        "Bench Press" "Chest" 1 "abc" "xyz").row.weight = 0 ∧
      (processSet (fun _ => none) (fun _ => none) [] "2024-01-01"
        "Bench Press" "Chest" 1 "abc" "xyz").warnWeight = true) ∧
    ((processSet (fun _ => none) (fun _ => none) [] "2024-01-01"
        "Bench Press" "Chest" 1 "abc" "xyz").row.reps = 0 ∧
      (processSet (fun _ => none) (fun _ => none) [] "2024-01-01"
        "Bench Press" "Chest" 1 "abc" "xyz").warnReps = true) :=
  have h := malformed_input_defaults (fun _ => none) (fun _ => none) []
    "2024-01-01" "Bench Press" "Chest" 1 "abc" "xyz"
  ⟨h.1 (by decide) rfl, h.2.1 (by decide) rfl⟩

/-- C10: an empty weight or reps input is silently defaulted to 0 with no
warning; the per-set warning fires exactly when the input is non-empty and
fails numeric parsing. -/
theorem empty_input_silent_default (pw : String → Option Rat)
    (pr : String → Option Int) (prevLogs : List Row)
    (date name bodyPart : String) (s : Nat) (wi ri : String) :
    (wi = "" →
      (processSet pw pr prevLogs date name bodyPart s wi ri).row.weight = 0 ∧
      (processSet pw pr prevLogs date name bodyPart s wi ri).warnWeight = false) ∧
    (ri = "" →
      (processSet pw pr prevLogs date name bodyPart s wi ri).row.reps = 0 ∧
      (processSet pw pr prevLogs date name bodyPart s wi ri).warnReps = false) ∧
    ((processSet pw pr prevLogs date name bodyPart s wi ri).warnWeight = true ↔
      wi ≠ "" ∧ pw wi = none) ∧
    ((processSet pw pr prevLogs date name bodyPart s wi ri).warnReps = true ↔
      ri ≠ "" ∧ pr ri = none) := by
  refine ⟨fun h => ?_, fun h => ?_, ?_, ?_⟩
  · subst h; simp [processSet, parseWeight]
  · subst h; simp [processSet, parseReps]
  · by_cases h : wi = ""
    · subst h; simp [processSet, parseWeight]
    · cases hp : pw wi <;> simp [processSet, parseWeight, h, hp]
  · by_cases h : ri = ""
    · subst h; simp [processSet, parseReps]
    · cases hp : pr ri <;> simp [processSet, parseReps, h, hp]

/-- Witness for C10 at empty weight and reps inputs. -/
theorem empty_input_silent_default_witness :
    (processSet (fun _ => none) (fun _ => none) [] "2024-01-01"
      "Bench Press" "Chest" 1 "" "").row.weight = 0 ∧
    (processSet (fun _ => none) (fun _ => none) [] "2024-01-01"
      "Bench Press" "Chest" 1 "" "").warnWeight = false :=
  (empty_input_silent_default (fun _ => none) (fun _ => none) []
    "2024-01-01" "Bench Press" "Chest" 1 "" "").1 rfl

/-! ### The first-maximum scan lemmas -/

/-- `listMax` on a cons. -/
theorem listMax_cons {α : Type} (f : α → Nat) (a : α) (l : List α) :
    listMax f (a :: l) = max (f a) (listMax f l) := rfl

/-- The maximum of `f` over a non-empty list is attained. -/
theorem exists_listMax_mem {α : Type} (f : α → Nat) :
    ∀ l : List α, l ≠ [] → ∃ x ∈ l, f x = listMax f l
  | [], h => absurd rfl h
  | a :: l, _ => by
    rcases eq_or_ne l [] with rfl | hl
    · exact ⟨a, List.mem_singleton_self a, by simp [listMax]⟩
    · obtain ⟨x, hx, he⟩ := exists_listMax_mem f l hl
      rw [listMax_cons]
      rcases Nat.le_total (listMax f l) (f a) with h | h
      · exact ⟨a, List.mem_cons_self a l, by omega⟩
      · exact ⟨x, List.mem_cons_of_mem _ hx, by omega⟩

/-- Complete description of the `detect_body_part` accumulator loop: the
accumulator survives unless the table holds a score both above the running
best and at least 80, in which case the result is the category of the
first pair attaining the table's maximal score. -/
theorem detectLoop_spec (score : String → String → Nat) (name : String) :
    ∀ (ps : List (String × String)) (best : Option String) (b : Nat),
      (¬ (b < listMax (fun p => score p.2 name) ps ∧
            80 ≤ listMax (fun p => score p.2 name) ps) ∧
          detectLoop score name ps best b = best) ∨
      ((b < listMax (fun p => score p.2 name) ps ∧
            80 ≤ listMax (fun p => score p.2 name) ps) ∧
          ∃ p, ps.find? (fun q => decide (score q.2 name =
              listMax (fun p => score p.2 name) ps)) = some p ∧
            detectLoop score name ps best b = some p.1) := by
  intro ps
  induction ps with
  | nil =>
    intro best b
    exact Or.inl ⟨by simp [listMax], rfl⟩
  | cons p ps ih =>
    intro best b
    have hM : listMax (fun p => score p.2 name) (p :: ps) =
        max (score p.2 name) (listMax (fun p => score p.2 name) ps) :=
      listMax_cons _ p ps
    by_cases hc : b < score p.2 name ∧ 80 ≤ score p.2 name
    · rw [detectLoop, if_pos hc]
      rcases ih (some p.1) (score p.2 name) with ⟨hno, heq⟩ | ⟨⟨h1, h2⟩, q, hfind, heq⟩
      · refine Or.inr ⟨⟨by omega, by omega⟩, p, ?_, heq⟩
        have hsc : score p.2 name = listMax (fun p => score p.2 name) (p :: ps) := by
          omega
        exact List.find?_cons_of_pos _ (decide_eq_true hsc)
      · refine Or.inr ⟨⟨by omega, by omega⟩, q, ?_, heq⟩
        have hne : ¬ (score p.2 name = listMax (fun p => score p.2 name) (p :: ps)) := by
          omega
        rw [List.find?_cons_of_neg _ (by simpa using hne)]
        have hMM : listMax (fun p => score p.2 name) (p :: ps) =
            listMax (fun p => score p.2 name) ps := by omega
        rw [hMM]
        exact hfind
    · rw [detectLoop, if_neg hc]
      rcases ih best b with ⟨hno, heq⟩ | ⟨⟨h1, h2⟩, q, hfind, heq⟩
      · exact Or.inl ⟨by omega, heq⟩
      · refine Or.inr ⟨⟨by omega, by omega⟩, q, ?_, heq⟩
        have hne : ¬ (score p.2 name = listMax (fun p => score p.2 name) (p :: ps)) := by
          omega
        rw [List.find?_cons_of_neg _ (by simpa using hne)]
        have hMM : listMax (fun p => score p.2 name) (p :: ps) =
            listMax (fun p => score p.2 name) ps := by omega
        rw [hMM]
        exact hfind

/-- C3: for every scorer and input name, `detect_body_part` returns the
category of the first `(category, keyword)` pair, in declared mapping
order, that attains the single highest score against the lower-cased name,
provided that best score is at least 80; otherwise it returns `none`. -/
theorem detect_body_part_spec (score : String → String → Nat)
    (exerciseName : String) :
    (80 ≤ bestKeywordScore score exerciseName.toLower →
      ∃ p, keywordPairs.find? (fun q => decide (score q.2 exerciseName.toLower =
          bestKeywordScore score exerciseName.toLower)) = some p ∧
        detect_body_part score exerciseName = some p.1) ∧
    (bestKeywordScore score exerciseName.toLower < 80 →
      detect_body_part score exerciseName = none) := by
  have h := detectLoop_spec score exerciseName.toLower keywordPairs none 0
  simp only [bestKeywordScore, detect_body_part]
  constructor
  · intro h80
    rcases h with ⟨hno, _⟩ | ⟨_, p, hfind, heq⟩
    · exact absurd ⟨by omega, h80⟩ hno
    · exact ⟨p, hfind, heq⟩
  · intro h80
    rcases h with ⟨_, heq⟩ | ⟨⟨_, hge⟩, _⟩
    · exact heq
    · omega

/-- Witness for C3: with the constant-100 scorer every pair attains the
best score 100 ≥ 80, and the first pair of the table wins. -/
theorem detect_body_part_spec_witness :
    ∃ p, keywordPairs.find? (fun q => decide (constScore q.2
        (String.toLower "Bench Press") =
        bestKeywordScore constScore (String.toLower "Bench Press"))) = some p ∧
      detect_body_part constScore "Bench Press" = some p.1 :=
  (detect_body_part_spec constScore "Bench Press").1 (by decide)

/-! ### Sorted lists and their last elements -/

/-- Every element of a `Pairwise R` list is its last element or relates to
it. -/
theorem pairwise_rel_getLast? {α : Type} {R : α → α → Prop} {l : List α}
    {b : α} (hp : l.Pairwise R) (hl : l.getLast? = some b) :
    ∀ x ∈ l, x = b ∨ R x b := by
  intro x hx
  obtain ⟨ys, rfl⟩ := List.getLast?_eq_some_iff.1 hl
  rw [List.pairwise_append] at hp
  rcases List.mem_append.1 hx with h | h
  · exact Or.inr (hp.2.2 x h b (List.mem_singleton_self b))
  · exact Or.inl (List.mem_singleton.1 h)

/-- C2: for every newly entered `(set_index, weight, reps)` and non-empty
history subset, the progress block of `render_exercise_block` produces no
verdict when no prior row matches both the set index and the weight
exactly; otherwise it takes a matching row of maximal date, uses its rep
count as `last_reps`, suggests `target_reps = last_reps + 1`, and renders
Regression, Match, or Improvement according to `reps` versus
`last_reps`. -/
theorem progress_advisor_spec (prevLogs : List Row) (s : Nat)
    (weight : Rat) (reps : Int) (hne : prevLogs ≠ []) :
    (sameWeightSet prevLogs s weight = [] →
      progressVerdict prevLogs s weight reps = none) ∧
    (sameWeightSet prevLogs s weight ≠ [] →
      ∃ row ∈ sameWeightSet prevLogs s weight,
        (∀ r' ∈ sameWeightSet prevLogs s weight, r'.date ≤ row.date) ∧
        progressVerdict prevLogs s weight reps =
          some ⟨row.reps, row.reps + 1,
            if reps < row.reps then VerdictKind.regression
            else if reps = row.reps then VerdictKind.matched
            else VerdictKind.improvement⟩) := by
  have h0 : prevLogs.isEmpty = false := by
    cases prevLogs with
    | nil => exact absurd rfl hne
    | cons a l => rfl
  constructor
  · intro h
    simp [progressVerdict, h0, h]
  · intro h
    have h1 : (sameWeightSet prevLogs s weight).isEmpty = false := by
      cases hms : sameWeightSet prevLogs s weight with
      | nil => exact absurd hms h
      | cons a l => rfl
    have hperm := List.mergeSort_perm (sameWeightSet prevLogs s weight)
      (fun a b => decide (a.date ≤ b.date))
    have hsorted := @List.sorted_mergeSort Row
      (fun a b : Row => decide (a.date ≤ b.date))
      (fun a b c hab hbc => by
        simp only [decide_eq_true_eq] at hab hbc ⊢
        exact le_trans hab hbc)
      (fun a b => by
        simp only [Bool.or_eq_true, decide_eq_true_eq]
        exact le_total a.date b.date)
      (sameWeightSet prevLogs s weight)
    have hsne : (sameWeightSet prevLogs s weight).mergeSort
        (fun a b => decide (a.date ≤ b.date)) ≠ [] := by
      intro hnil
      rw [hnil] at hperm
      exact h (List.Perm.nil_eq hperm).symm
    obtain ⟨last, hlast⟩ : ∃ b, ((sameWeightSet prevLogs s weight).mergeSort
        (fun a b => decide (a.date ≤ b.date))).getLast? = some b := by
      cases hgl : ((sameWeightSet prevLogs s weight).mergeSort
          (fun a b => decide (a.date ≤ b.date))).getLast? with
      | none => exact absurd (List.getLast?_eq_none_iff.1 hgl) hsne
      | some b => exact ⟨b, rfl⟩
    have hmem : last ∈ sameWeightSet prevLogs s weight :=
      hperm.mem_iff.1 (List.mem_of_getLast?_eq_some hlast)
    have hmax : ∀ r' ∈ sameWeightSet prevLogs s weight, r'.date ≤ last.date := by
      intro r' hr'
      rcases pairwise_rel_getLast? hsorted hlast r' (hperm.mem_iff.2 hr') with
        rfl | hR
      · exact le_refl _
      · simpa using hR
    refine ⟨last, hmem, hmax, ?_⟩
    simp only [progressVerdict, h0, h1, Bool.false_eq_true, if_false]
    rw [hlast]
    show (if reps < last.reps then
        some (Suggestion.mk last.reps (last.reps + 1) VerdictKind.regression)
      else if reps = last.reps then
        some (Suggestion.mk last.reps (last.reps + 1) VerdictKind.matched)
      else
        some (Suggestion.mk last.reps (last.reps + 1) VerdictKind.improvement)) = _
    split_ifs <;> rfl

/-- Witness for C2: two bench-press sessions at set 1 and 60 kg; the later
one (9 reps) is the comparison row for a new entry. -/
theorem progress_advisor_spec_witness :
    ∃ row ∈ sameWeightSet [rowBench1, rowBench2] 1 60,
      (∀ r' ∈ sameWeightSet [rowBench1, rowBench2] 1 60, r'.date ≤ row.date) ∧
      progressVerdict [rowBench1, rowBench2] 1 60 9 =
        some ⟨row.reps, row.reps + 1,
          if (9 : Int) < row.reps then VerdictKind.regression
          else if (9 : Int) = row.reps then VerdictKind.matched
          else VerdictKind.improvement⟩ :=
  (progress_advisor_spec [rowBench1, rowBench2] 1 60 9 (by decide)).2
    (by decide)

/-! ### Properties of `uniqueFirst` -/

/-- `uniqueFirst` preserves membership. -/
theorem mem_uniqueFirst {α : Type} [DecidableEq α] :
    ∀ (l : List α) (a : α), a ∈ uniqueFirst l ↔ a ∈ l := by
  intro l
  induction l with
  | nil => intro a; simp [uniqueFirst]
  | cons b l ih =>
    intro a
    by_cases hab : a = b
    · subst hab; simp [uniqueFirst]
    · simp [uniqueFirst, List.mem_filter, ih, hab]

/-- `uniqueFirst` has no duplicates. -/
theorem nodup_uniqueFirst {α : Type} [DecidableEq α] :
    ∀ l : List α, (uniqueFirst l).Nodup
  | [] => List.nodup_nil
  | a :: l => by
    simp only [uniqueFirst]
    rw [List.nodup_cons]
    refine ⟨?_, List.Nodup.filter _ (nodup_uniqueFirst l)⟩
    intro hmem
    have := (List.mem_filter.1 hmem).2
    simp at this

/-- `uniqueFirst` is a sublist of its input. -/
theorem uniqueFirst_sublist {α : Type} [DecidableEq α] :
    ∀ l : List α, List.Sublist (uniqueFirst l) l
  | [] => List.Sublist.refl []
  | a :: l => by
    simp only [uniqueFirst]
    exact List.Sublist.cons₂ a
      ((List.filter_sublist _).trans (uniqueFirst_sublist l))

/-- On a list that is sorted weakly descending, `uniqueFirst` is strictly
descending. -/
theorem uniqueFirst_pairwise_gt {α : Type} [DecidableEq α] [LinearOrder α]
    (l : List α) (h : l.Pairwise (fun a b => b ≤ a)) :
    (uniqueFirst l).Pairwise (fun a b => b < a) := by
  have h1 : (uniqueFirst l).Pairwise (fun a b => b ≤ a) :=
    h.sublist (uniqueFirst_sublist l)
  have h2 : (uniqueFirst l).Pairwise (fun a b => a ≠ b) := nodup_uniqueFirst l
  exact (h1.and h2).imp (fun hab => lt_of_le_of_ne hab.1 (Ne.symm hab.2))

/-- In a strictly descending list of strings, an element lies among the
first `n` entries exactly when fewer than `n` entries are greater than
it. -/
theorem mem_take_iff_countP_lt :
    ∀ (u : List String), u.Pairwise (fun a b => b < a) →
      ∀ d ∈ u, ∀ n : Nat,
        (d ∈ u.take n ↔ u.countP (fun x => decide (d < x)) < n) := by
  intro u
  induction u with
  | nil => intro _ d hd; exact absurd hd (List.not_mem_nil d)
  | cons a u ih =>
    intro hp d hd n
    rw [List.pairwise_cons] at hp
    rcases List.mem_cons.1 hd with rfl | hd'
    · have hcount : (d :: u).countP (fun x => decide (d < x)) = 0 := by
        rw [List.countP_eq_zero]
        intro x hx
        rcases List.mem_cons.1 hx with rfl | hx'
        · simp
        · simp only [decide_eq_true_eq]
          exact not_lt_of_gt (hp.1 x hx')
      rw [hcount]
      cases n with
      | zero => simp
      | succ n => simp
    · have hda : d < a := hp.1 d hd'
      have hcount : (a :: u).countP (fun x => decide (d < x)) =
          u.countP (fun x => decide (d < x)) + 1 := by
        rw [List.countP_cons]
        simp [hda]
      rw [hcount]
      cases n with
      | zero => simp
      | succ n =>
        rw [List.take_succ_cons]
        have hne : d ≠ a := ne_of_lt hda
        simp only [List.mem_cons, hne, false_or]
        rw [ih hp.2 d hd' n]
        omega

/-! ### The `extractOne` scan -/

/-- Complete description of the scan inside `extractOne`: the running best
survives unless a strictly greater score appears, in which case the result
is the first candidate attaining the maximal score, with that score. -/
theorem extractLoop_spec (score : String → String → Nat) (q : String) :
    ∀ (cs : List String) (best : String × Nat),
      (listMax (score q) cs ≤ best.2 ∧ extractLoop score q cs best = best) ∨
      (best.2 < listMax (score q) cs ∧
        ∃ c, cs.find? (fun c => decide (score q c = listMax (score q) cs)) =
            some c ∧
          extractLoop score q cs best = (c, listMax (score q) cs)) := by
  intro cs
  induction cs with
  | nil => intro best; exact Or.inl ⟨by simp [listMax], rfl⟩
  | cons c cs ih =>
    intro best
    have hM : listMax (score q) (c :: cs) =
        max (score q c) (listMax (score q) cs) := listMax_cons _ c cs
    by_cases hc : best.2 < score q c
    · rw [extractLoop, if_pos hc]
      rcases ih (c, score q c) with ⟨hle, heq⟩ | ⟨hlt, c', hfind, heq⟩
      · refine Or.inr ⟨by omega, c, ?_, ?_⟩
        · exact List.find?_cons_of_pos _ (decide_eq_true (by omega))
        · rw [heq]
          simp only [Prod.mk.injEq]
          exact ⟨trivial, by omega⟩
      · refine Or.inr ⟨by omega, c', ?_, ?_⟩
        · rw [List.find?_cons_of_neg _
            (by simp only [decide_eq_true_eq]; omega)]
          have hMM : listMax (score q) (c :: cs) = listMax (score q) cs := by
            omega
          rw [hMM]
          exact hfind
        · rw [heq]
          simp only [Prod.mk.injEq]
          exact ⟨trivial, by omega⟩
    · rw [extractLoop, if_neg hc]
      rcases ih best with ⟨hle, heq⟩ | ⟨hlt, c', hfind, heq⟩
      · exact Or.inl ⟨by omega, heq⟩
      · refine Or.inr ⟨by omega, c', ?_, ?_⟩
        · rw [List.find?_cons_of_neg _
            (by simp only [decide_eq_true_eq]; omega)]
          have hMM : listMax (score q) (c :: cs) = listMax (score q) cs := by
            omega
          rw [hMM]
          exact hfind
        · rw [heq]
          simp only [Prod.mk.injEq]
          exact ⟨trivial, by omega⟩

/-- `extractOne` on a non-empty candidate list returns the first candidate
attaining the maximal score, paired with that score. -/
theorem extractOne_spec (score : String → String → Nat) (q : String) :
    ∀ cs : List String, cs ≠ [] →
      ∃ b, cs.find? (fun c => decide (score q c = listMax (score q) cs)) =
          some b ∧
        extractOne score q cs = some (b, listMax (score q) cs) := by
  intro cs hcs
  cases cs with
  | nil => exact absurd rfl hcs
  | cons c cs =>
    have hM : listMax (score q) (c :: cs) =
        max (score q c) (listMax (score q) cs) := listMax_cons _ c cs
    rcases extractLoop_spec score q cs (c, score q c) with
      ⟨hle, heq⟩ | ⟨hlt, c', hfind, heq⟩
    · refine ⟨c, ?_, ?_⟩
      · exact List.find?_cons_of_pos _ (decide_eq_true (by omega))
      · rw [extractOne, heq]
        simp only [Option.some.injEq, Prod.mk.injEq]
        exact ⟨trivial, by omega⟩
    · refine ⟨c', ?_, ?_⟩
      · rw [List.find?_cons_of_neg _
          (by simp only [decide_eq_true_eq]; omega)]
        have hMM : listMax (score q) (c :: cs) = listMax (score q) cs := by
          omega
        rw [hMM]
        exact hfind
      · rw [extractOne, heq]
        simp only [Option.some.injEq, Prod.mk.injEq]
        exact ⟨trivial, by omega⟩

/-- C1: for every scorer, query name and parsed log, `get_previous_logs`
determines the best fuzzy match among the distinct historical exercise
names (first name attaining the best score); when that single best score
is at least 85 it returns exactly (up to order) the log rows whose
exercise name equals the best match case-insensitively, restricted to the
two most recent distinct dates among those rows; when the best score is
below 85 it returns the empty sequence. -/
theorem history_matcher_spec (score : String → String → Nat) (q : String)
    (df : DataFrame) (h1 : df.hasExercise = true) (h2 : df.rows ≠ []) :
    ∃ best, bestHistMatch? score df q = some best ∧
      (85 ≤ bestHistScore score df q →
        (get_previous_logs score (some df) q).Perm (specRecentRows df best)) ∧
      (bestHistScore score df q < 85 →
        get_previous_logs score (some df) q = []) := by
  have hnames : histNames df ≠ [] := by
    cases hr : df.rows with
    | nil => exact absurd hr h2
    | cons r rs => simp [histNames, hr, uniqueFirst]
  obtain ⟨best, hfind, hext⟩ := extractOne_spec score q.toLower (histNames df)
    hnames
  have hrowsne : df.rows.isEmpty = false := by
    cases hr : df.rows with
    | nil => exact absurd hr h2
    | cons r rs => rfl
  have hM : bestHistScore score df q =
      listMax (score q.toLower) (histNames df) := rfl
  have hcond : ¬ (df.rows.isEmpty = true ∨ df.hasExercise = false) := by
    simp [hrowsne, h1]
  have hgpl : get_previous_logs score (some df) q =
      if 85 ≤ listMax (score q.toLower) (histNames df) then
        (sortedMatched df best).filter
          (fun r => decide (r.date ∈ recentDates df best))
      else [] := by
    simp only [get_previous_logs]
    rw [if_neg hcond, hext]
  refine ⟨best, hfind, ?_, ?_⟩
  · intro h85
    rw [hgpl, if_pos (hM ▸ h85)]
    have hperm : (sortedMatched df best).Perm (matchedRows df best) :=
      List.mergeSort_perm _ _
    have hsorted : (sortedMatched df best).Pairwise
        (fun a b => decide (b.date ≤ a.date) = true) :=
      @List.sorted_mergeSort Row (fun a b : Row => decide (b.date ≤ a.date))
        (fun a b c hab hbc => by
          simp only [decide_eq_true_eq] at hab hbc ⊢
          exact le_trans hbc hab)
        (fun a b => by
          simp only [Bool.or_eq_true, decide_eq_true_eq]
          exact le_total b.date a.date)
        (matchedRows df best)
    have hdates : ((sortedMatched df best).map (fun r => r.date)).Pairwise
        (fun a b : String => b ≤ a) := by
      rw [List.pairwise_map]
      exact hsorted.imp (fun h => by simpa using h)
    have hu := uniqueFirst_pairwise_gt _ hdates
    have hpermdates :
        (uniqueFirst ((sortedMatched df best).map (fun r => r.date))).Perm
          (uniqueFirst ((matchedRows df best).map (fun r => r.date))) := by
      apply (List.perm_ext_iff_of_nodup (nodup_uniqueFirst _)
        (nodup_uniqueFirst _)).2
      intro d
      rw [mem_uniqueFirst, mem_uniqueFirst]
      exact (hperm.map (fun r => r.date)).mem_iff
    have hpt : ∀ r ∈ sortedMatched df best,
        (decide (r.date ∈ recentDates df best)) =
          isRecentOf (matchedRows df best) r := by
      intro r hr
      have hdmem : r.date ∈ (sortedMatched df best).map (fun r => r.date) :=
        List.mem_map_of_mem _ hr
      have hdmem' := (mem_uniqueFirst _ _).2 hdmem
      have hiff := mem_take_iff_countP_lt _ hu r.date hdmem' 2
      have hcount := hpermdates.countP_eq (fun x => decide (r.date < x))
      simp only [isRecentOf]
      rw [decide_eq_decide]
      simp only [recentDates]
      rw [hiff, hcount]
    rw [List.filter_congr hpt]
    exact hperm.filter _
  · intro h85
    rw [hgpl, if_neg (Nat.not_le.2 (hM ▸ h85))]

/-- Witness for C1: the constant-100 scorer on a three-session store; the
hypotheses (exercise column present, non-empty log) hold by computation. -/
theorem history_matcher_spec_witness :
    ∃ best, bestHistMatch? constScore dfSample "Bench Press" = some best ∧
      (85 ≤ bestHistScore constScore dfSample "Bench Press" →
        (get_previous_logs constScore (some dfSample) "Bench Press").Perm
          (specRecentRows dfSample best)) ∧
      (bestHistScore constScore dfSample "Bench Press" < 85 →
        get_previous_logs constScore (some dfSample) "Bench Press" = []) :=
  history_matcher_spec constScore "Bench Press" dfSample rfl (by decide)

end WorkoutLogger
